import Mathlib

/-!
Shallow embedding of the `endb` key-value facade (src/index.js) for the
in-memory fallback path, where `options.store` is a fresh JavaScript `Map`.

JavaScript values are modelled by the inductive `JSValue`; numbers are
modelled as exact rationals.  A JavaScript `Map` with string keys is
modelled as an insertion-ordered association list (`Store`); `Map.set` on
an existing key updates the value in place, `Map.delete` reports whether
the key was present, matching the ECMAScript semantics.  Promise results
of operations that can reject are modelled with `Except String`.
-/

namespace EndbModel

/-- Model of a JavaScript value: `undefined`, `null`, booleans, numbers
(as exact rationals), strings, arrays and plain objects. -/
inductive JSValue where
  | undefined
  | null
  | bool (b : Bool)
  | num (q : ℚ)
  | str (s : String)
  | arr (elems : List JSValue)
  | obj (fields : List (String × JSValue))

/-- Model of the in-memory `Map` store: an insertion-ordered association
list from (already namespaced) string keys to values. -/
abbrev Store := List (String × JSValue)

/-- Model of `Map.prototype.get`: the value bound to `k`, or `undefined`
when `k` is absent. -/
def mapGet : Store → String → JSValue
  | [], _ => .undefined
  | (k', v) :: rest, k => if k' == k then v else mapGet rest k

/-- Model of `Map.prototype.set`: update the first binding of `k` in
place, keeping its position, or append a new binding at the end. -/
def mapSet : Store → String → JSValue → Store
  | [], k, v => [(k, v)]
  | (k', v') :: rest, k, v =>
      if k' == k then (k', v) :: rest else (k', v') :: mapSet rest k v

/-- Model of `Map.prototype.delete`: remove the first binding of `k` and
report whether a binding existed. -/
def mapDelete : Store → String → Bool × Store
  | [], _ => (false, [])
  | (k', v') :: rest, k =>
      if k' == k then (true, rest)
      else
        let r := mapDelete rest k
        (r.1, (k', v') :: r.2)

/-- Model of `Map.prototype.has`. -/
def mapHas (st : Store) (k : String) : Bool :=
  st.any (fun p => p.1 == k)

/-- Model of `String.prototype.replace` with a plain-string pattern on a
list of characters: replace the first occurrence of `pat` by `rep`,
leaving the string unchanged when `pat` does not occur. -/
def replaceFirstList (pat rep : List Char) : List Char → List Char
  | [] => if pat.isPrefixOf ([] : List Char) then rep else []
  | c :: cs =>
      if pat.isPrefixOf (c :: cs) then rep ++ (c :: cs).drop pat.length
      else c :: replaceFirstList pat rep cs

/-- Model of `String.prototype.replace(pat, rep)` for string `pat` (the
first occurrence only, as in JavaScript). -/
def jsReplaceFirst (pat rep s : String) : String :=
  ⟨replaceFirstList pat.data rep.data s.data⟩

/-- Model of `Endb.prototype._addKeyPrefix` (src/index.js line 99). -/
def _addKeyPrefix (ns key : String) : String :=
  ns ++ ":" ++ key

/-- Model of `Endb.prototype._removeKeyPrefix` (src/index.js line 103):
the source is the template string replace with the empty string. -/
def _removeKeyPrefix (ns key : String) : String :=
  jsReplaceFirst (ns ++ ":") "" key

/-- Numeric digit value of a decimal digit character. -/
def digitVal (c : Char) : Nat := c.toNat - 48

/-- Value of a list of decimal digit characters, most significant first. -/
def digitsToNat (ds : List Char) : Nat :=
  ds.foldl (fun a c => a * 10 + digitVal c) 0

/-- Decimal / lowercase hexadecimal digit character for `n < 16`. -/
def hexDigitStr (n : Nat) : String :=
  String.singleton (Char.ofNat (if n < 10 then 48 + n else 87 + n))

/-- Model of the string formatting of a JavaScript number.  Integral
values print exactly as in JavaScript; for non-integral values the
JavaScript shortest-round-trip decimal form of a double has no exact
counterpart in this rational model, so the fraction form is used.  No
claim in this development depends on the non-integral case. -/
def numToString (q : ℚ) : String :=
  if q.den = 1 then toString q.num
  else toString q.num ++ "/" ++ toString q.den

/-- Escaping of one character inside a JSON string literal, as produced
by `JSON.stringify`. -/
def jsonEscapeChar (c : Char) : String :=
  if c == '"' then "\\\""
  else if c == '\\' then "\\\\"
  else if c == '\n' then "\\n"
  else if c == '\r' then "\\r"
  else if c == '\t' then "\\t"
  else if c.toNat == 8 then "\\b"
  else if c.toNat == 12 then "\\f"
  else if c.toNat < 32 then "\\u00" ++ hexDigitStr (c.toNat / 16) ++ hexDigitStr (c.toNat % 16)
  else String.singleton c

/-- Model of the `QuoteJSONString` operation of `JSON.stringify`. -/
def jsonQuote (s : String) : String :=
  "\"" ++ String.join (s.data.map jsonEscapeChar) ++ "\""

mutual

/-- Model of `JSON.stringify` (the default `options.serialize` of the
facade).  It returns a JavaScript value: a string for serializable
input, and `undefined` for a bare `undefined`.  Functions, symbols and
circular structures do not occur in this value model. -/
def jsonStringifyVal : JSValue → JSValue
  | .undefined => .undefined
  | .null => .str "null"
  | .bool b => .str (if b then "true" else "false")
  | .num q => .str (numToString q)
  | .str s => .str (jsonQuote s)
  | .arr xs => .str ("[" ++ String.intercalate "," (jsonStringifyArr xs) ++ "]")
  | .obj fs => .str ("\x7b" ++ String.intercalate "," (jsonStringifyObj fs) ++ "\x7d")

/-- Serialization of array members: members that serialize to
`undefined` appear as `null`. -/
def jsonStringifyArr : List JSValue → List String
  | [] => []
  | v :: vs =>
      (match jsonStringifyVal v with
        | .str s => s
        | _ => "null") :: jsonStringifyArr vs

/-- Serialization of object members: members that serialize to
`undefined` are omitted. -/
def jsonStringifyObj : List (String × JSValue) → List String
  | [] => []
  | f :: fs =>
      (match jsonStringifyVal f.2 with
        | .str s => [jsonQuote f.1 ++ ":" ++ s]
        | _ => []) ++ jsonStringifyObj fs

end

/-- Whitespace characters of the JSON grammar: space, tab, line feed
and carriage return. -/
def jsonWs (c : Char) : Bool :=
  [32, 9, 10, 13].contains c.toNat

/-- Drop leading JSON whitespace. -/
def skipJsonWs : List Char → List Char
  | [] => []
  | c :: cs => if jsonWs c then skipJsonWs cs else c :: cs

/-- Numeric value denoted by a parsed JSON number: an optional sign, an
integer part, fractional digits and a decimal exponent. -/
def mkNum (neg : Bool) (ip : Nat) (fracDs : List Char) (e : Int) : JSValue :=
  let mantissa : Int := ip * 10 ^ fracDs.length + digitsToNat fracDs
  let m : Int := if neg then -mantissa else mantissa
  .num ((m : ℚ) * (10 : ℚ) ^ (e - (fracDs.length : Int)))

/-- Exponent part of a JSON number (after the integer and fraction). -/
def parseExpPart (neg : Bool) (ip : Nat) (fracDs : List Char) (s : List Char) :
    Except String (JSValue × List Char) :=
  match s with
  | c :: rest =>
    if c == 'e' || c == 'E' then
      let signRest : Int × List Char :=
        match rest with
        | '+' :: r => (1, r)
        | '-' :: r => (-1, r)
        | r => (1, r)
      let eds := signRest.2.takeWhile Char.isDigit
      let rest3 := signRest.2.dropWhile Char.isDigit
      if eds.isEmpty then .error "Unexpected token"
      else .ok (mkNum neg ip fracDs (signRest.1 * (digitsToNat eds : Int)), rest3)
    else .ok (mkNum neg ip fracDs 0, s)
  | [] => .ok (mkNum neg ip fracDs 0, [])

/-- Fraction part of a JSON number (after the integer part). -/
def parseFracExp (neg : Bool) (ip : Nat) (s : List Char) :
    Except String (JSValue × List Char) :=
  match s with
  | '.' :: rest =>
    let ds := rest.takeWhile Char.isDigit
    let s2 := rest.dropWhile Char.isDigit
    if ds.isEmpty then .error "Unexpected token"
    else parseExpPart neg ip ds s2
  | _ => parseExpPart neg ip [] s

/-- JSON number grammar: optional minus sign, then either a single `0`
or a nonzero digit followed by digits. -/
def parseNumber (s : List Char) : Except String (JSValue × List Char) :=
  let signRest : Bool × List Char :=
    match s with
    | '-' :: rest => (true, rest)
    | _ => (false, s)
  match signRest.2 with
  | '0' :: rest => parseFracExp signRest.1 0 rest
  | c :: cs =>
    if c.isDigit then
      let ds := (c :: cs).takeWhile Char.isDigit
      let rest := (c :: cs).dropWhile Char.isDigit
      parseFracExp signRest.1 (digitsToNat ds) rest
    else .error "Unexpected token"
  | [] => .error "Unexpected end of JSON input"

/-- Unescaped form of a single-character JSON escape sequence. -/
def jsonEscDecode : Char → Option Char
  | '"' => some '"'
  | '\\' => some '\\'
  | '/' => some '/'
  | 'b' => some (Char.ofNat 8)
  | 'f' => some (Char.ofNat 12)
  | 'n' => some '\n'
  | 'r' => some '\r'
  | 't' => some '\t'
  | _ => none

/-- Value of a hexadecimal digit character (either case). -/
def hexVal (c : Char) : Nat :=
  if c.toNat ≤ 57 then c.toNat - 48
  else if 97 ≤ c.toNat then c.toNat - 87
  else c.toNat - 55

/-- Hexadecimal digit test for JSON unicode escapes. -/
def isHexRange (c : Char) : Bool :=
  c.isDigit || (97 ≤ c.toNat && c.toNat ≤ 102) || (65 ≤ c.toNat && c.toNat ≤ 70)

mutual

/-- Fuel-indexed recursive-descent parser for a JSON value, the model of
`JSON.parse` (the default `options.deserialize` of the facade).  The
fuel only bounds recursion depth; every claim that touches the parser is
settled at concrete inputs where the supplied fuel is ample. -/
def parseValueF (fuel : Nat) (s : List Char) : Except String (JSValue × List Char) :=
  match fuel with
  | 0 => .error "out of fuel"
  | fuel + 1 =>
    match s with
    | [] => .error "Unexpected end of JSON input"
    | c :: cs =>
      if c == '\x7b' then
        match skipJsonWs cs with
        | '\x7d' :: rest => .ok (.obj [], rest)
        | s1 =>
          match parseObjItemsF fuel s1 with
          | .ok r => .ok (.obj r.1, r.2)
          | .error e => .error e
      else if c == '[' then
        match skipJsonWs cs with
        | ']' :: rest => .ok (.arr [], rest)
        | s1 =>
          match parseArrayItemsF fuel s1 with
          | .ok r => .ok (.arr r.1, r.2)
          | .error e => .error e
      else if c == '"' then
        match parseJsonStringF fuel cs with
        | .ok r => .ok (.str r.1, r.2)
        | .error e => .error e
      else if c == 't' then
        if cs.take 3 == ['r', 'u', 'e'] then .ok (.bool true, cs.drop 3)
        else .error "Unexpected token"
      else if c == 'f' then
        if cs.take 4 == ['a', 'l', 's', 'e'] then .ok (.bool false, cs.drop 4)
        else .error "Unexpected token"
      else if c == 'n' then
        if cs.take 3 == ['u', 'l', 'l'] then .ok (.null, cs.drop 3)
        else .error "Unexpected token"
      else if c == '-' || c.isDigit then
        parseNumber (c :: cs)
      else .error "Unexpected token"

/-- Comma-separated members of a nonempty JSON array, up to `]`. -/
def parseArrayItemsF (fuel : Nat) (s : List Char) :
    Except String (List JSValue × List Char) :=
  match fuel with
  | 0 => .error "out of fuel"
  | fuel + 1 =>
    match parseValueF fuel (skipJsonWs s) with
    | .error e => .error e
    | .ok r =>
      match skipJsonWs r.2 with
      | ',' :: rest2 =>
        match parseArrayItemsF fuel rest2 with
        | .ok r2 => .ok (r.1 :: r2.1, r2.2)
        | .error e => .error e
      | ']' :: rest2 => .ok ([r.1], rest2)
      | _ => .error "Expected comma or closing bracket after array element"

/-- Comma-separated members of a nonempty JSON object, up to the closing
brace. -/
def parseObjItemsF (fuel : Nat) (s : List Char) :
    Except String (List (String × JSValue) × List Char) :=
  match fuel with
  | 0 => .error "out of fuel"
  | fuel + 1 =>
    match skipJsonWs s with
    | '"' :: cs =>
      match parseJsonStringF fuel cs with
      | .error e => .error e
      | .ok rk =>
        match skipJsonWs rk.2 with
        | ':' :: rest2 =>
          match parseValueF fuel (skipJsonWs rest2) with
          | .error e => .error e
          | .ok rv =>
            match skipJsonWs rv.2 with
            | ',' :: rest4 =>
              match parseObjItemsF fuel rest4 with
              | .ok r2 => .ok ((rk.1, rv.1) :: r2.1, r2.2)
              | .error e => .error e
            | '\x7d' :: rest4 => .ok ([(rk.1, rv.1)], rest4)
            | _ => .error "Expected comma or closing brace after object member"
        | _ => .error "Expected colon after object key"
    | _ => .error "Expected string key in object"

/-- Body of a JSON string literal after the opening quote.  Lone
surrogate escapes cannot be represented by a Lean scalar character, so
`Char.ofNat` defaults for them; no claim exercises that case. -/
def parseJsonStringF (fuel : Nat) (s : List Char) :
    Except String (String × List Char) :=
  match fuel with
  | 0 => .error "out of fuel"
  | fuel + 1 =>
    match s with
    | [] => .error "Unterminated string in JSON"
    | '"' :: rest => .ok ("", rest)
    | '\\' :: e :: rest =>
      if e == 'u' then
        match rest with
        | h1 :: h2 :: h3 :: h4 :: rest2 =>
          if isHexRange h1 && isHexRange h2 && isHexRange h3 && isHexRange h4 then
            match parseJsonStringF fuel rest2 with
            | .ok r =>
              .ok (String.singleton
                    (Char.ofNat (((hexVal h1 * 16 + hexVal h2) * 16 + hexVal h3) * 16 + hexVal h4))
                  ++ r.1, r.2)
            | .error er => .error er
          else .error "Bad Unicode escape in JSON"
        | _ => .error "Bad Unicode escape in JSON"
      else
        match jsonEscDecode e with
        | some c =>
          match parseJsonStringF fuel rest with
          | .ok r => .ok (String.singleton c ++ r.1, r.2)
          | .error er => .error er
        | none => .error "Bad escaped character in JSON"
    | c :: rest =>
      if c.toNat < 32 then .error "Bad control character in JSON string"
      else
        match parseJsonStringF fuel rest with
        | .ok r => .ok (String.singleton c ++ r.1, r.2)
        | .error er => .error er

end

/-- Model of `JSON.parse` on a string: parse one JSON value surrounded
by optional whitespace. -/
def jsonParse (text : String) : Except String JSValue :=
  match parseValueF (text.length * 2 + 16) (skipJsonWs text.data) with
  | .error e => .error e
  | .ok r =>
    if (skipJsonWs r.2).isEmpty then .ok r.1
    else .error "Unexpected non-whitespace after JSON value"

mutual

/-- Model of the ECMAScript `ToString` coercion, which `JSON.parse`
applies to its argument first: strings are unchanged, arrays join their
members with commas, plain objects print as `[object Object]`. -/
def jsToString : JSValue → String
  | .undefined => "undefined"
  | .null => "null"
  | .bool b => if b then "true" else "false"
  | .num q => numToString q
  | .str s => s
  | .arr xs => String.intercalate "," (jsToStringList xs)
  | .obj _ => "[object Object]"

/-- Member strings for the array join: `undefined` and `null` members
join as the empty string. -/
def jsToStringList : List JSValue → List String
  | [] => []
  | v :: vs =>
      (match v with
        | .undefined => ""
        | .null => ""
        | w => jsToString w) :: jsToStringList vs

end

/-- Model of applying `JSON.parse` to an arbitrary JavaScript value:
the argument is coerced to a string and then parsed. -/
def jsonParseJS (v : JSValue) : Except String JSValue :=
  jsonParse (jsToString v)

/-- Model of the property access `x.value` performed by `all()` on the
result of the deserialize hook: a `TypeError` on `null` or `undefined`,
the (last-written) `value` member of an object, `undefined` otherwise. -/
def jsGetValueProp : JSValue → Except String JSValue
  | .undefined => .error "TypeError: cannot read property value of undefined"
  | .null => .error "TypeError: cannot read property value of null"
  | .obj fields =>
      .ok (((fields.reverse.find? (fun p => p.1 == "value")).map Prod.snd).getD .undefined)
  | _ => .ok .undefined

/-- Per-instance configuration of the facade: the namespace
(`options.namespace`, field `ns` since `namespace` is reserved in Lean)
and the serialize/deserialize hooks, which may throw. -/
structure EndbOptions where
  ns : String
  serialize : JSValue → Except String JSValue
  deserialize : JSValue → Except String JSValue

/-- Defaults applied by the `Endb` constructor (src/index.js lines
78-86): namespace `endb`, `JSON.stringify` and `JSON.parse`. -/
def defaultOptions : EndbOptions :=
  { ns := "endb"
    serialize := fun v => .ok (jsonStringifyVal v)
    deserialize := jsonParseJS }

/-- Model of `Endb.prototype.get` on the in-memory store (src/index.js
lines 197-208): prefix the key, read the `Map`, and map `undefined` to
`undefined` (the final `.then` of the source). -/
def getEndb (o : EndbOptions) (st : Store) (key : String) : JSValue :=
  match mapGet st (_addKeyPrefix o.ns key) with
  | .undefined => .undefined
  | d => d

/-- Model of `Endb.prototype.set` (src/index.js lines 309-315): prefix
the key, invoke the serialize hook (its result is discarded by the
source), store the raw value, and resolve to `true`. -/
def setEndb (o : EndbOptions) (st : Store) (key : String) (value : JSValue) :
    Except String (Bool × Store) := do
  let k := _addKeyPrefix o.ns key
  let _ ← o.serialize value
  pure (true, mapSet st k value)

/-- Model of `Endb.prototype.delete` on the in-memory store
(src/index.js lines 153-156). -/
def deleteEndb (o : EndbOptions) (st : Store) (key : String) : Bool × Store :=
  mapDelete st (_addKeyPrefix o.ns key)

/-- Model of `Endb.prototype.has` on the in-memory store (src/index.js
lines 224-232, the `instanceof Map` branch). -/
def hasEndb (o : EndbOptions) (st : Store) (key : String) : Bool :=
  mapHas st (_addKeyPrefix o.ns key)

/-- Model of `Endb.prototype.clear` on the in-memory store
(src/index.js lines 142-144): `Map.prototype.clear` empties the whole
map. -/
def clearEndb (_st : Store) : Store := []

/-- One `{key, value}` record pushed by `all()`. -/
structure Element where
  key : String
  value : JSValue

/-- Model of `Endb.prototype.all` on the in-memory store (src/index.js
lines 116-134, the `instanceof Map` branch): for each entry, strip the
namespace prefix from the key and take the `value` member of the
deserialized stored value; an exception in the loop rejects the whole
promise. -/
def allEndb (o : EndbOptions) (st : Store) : Except String (List Element) :=
  st.mapM (fun kv => do
    let parsed ← o.deserialize kv.2
    let pv ← jsGetValueProp parsed
    pure { key := _removeKeyPrefix o.ns kv.1, value := pv })

/-- JavaScript object literal `{key, value}` for an element, the shape
`find` returns. -/
def elemToJS (e : Element) : JSValue :=
  .obj [("key", .str e.key), ("value", e.value)]

/-- Loop body of `Endb.prototype.find` (src/index.js lines 177-184):
return the first element whose value satisfies the predicate, else
`undefined`. -/
def findLoop (fn : JSValue → Bool) : List Element → JSValue
  | [] => .undefined
  | e :: es => if fn e.value then elemToJS e else findLoop fn es

/-- Model of `Endb.prototype.find` (src/index.js lines 172-185): await
`all()`, then scan the elements. -/
def findEndb (o : EndbOptions) (st : Store) (fn : JSValue → Bool) :
    Except String JSValue :=
  (allEndb o st).map (findLoop fn)

/-- Model of `Math.round` on a nonnegative rational. -/
def jsRound (q : ℚ) : Int := Int.floor (q + 1 / 2)

/-- Model of `Endb.prototype.math` (src/index.js lines 255-266).  The
random draw `rand` stands for the `Math.random()` result in `[0, 1)`;
`utilMath` abstracts `util.math` from src/util.js, which is not under
src/ and is not exercised by any claim. -/
def mathEndb (o : EndbOptions) (st : Store) (key operation : String)
    (operand : ℚ) (rand : ℚ)
    (utilMath : JSValue → String → ℚ → Except String JSValue) :
    Except String (Bool × Store) :=
  if operation == "random" || operation == "rand" then
    setEndb o st key (.num ((jsRound (rand * operand) : Int) : ℚ))
  else do
    let current := getEndb o st key
    let result ← utilMath current operation operand
    setEndb o st key result

/-- Result of adapter resolution: either a backend module path handed to
`require`, or a fresh (empty) in-memory `Map`. -/
inductive Resolved where
  | adapterModule (modulePath : String)
  | memoryMap (st : Store)

/-- The fixed scheme-to-module mapping of `load` (src/index.js lines
6-18). -/
def adapters : List (String × String) :=
  [("level", "./adapters/leveldb"), ("leveldb", "./adapters/leveldb"),
   ("mongo", "./adapters/mongodb"), ("mongodb", "./adapters/mongodb"),
   ("mysql", "./adapters/mysql"), ("mysql2", "./adapters/mysql"),
   ("postgres", "./adapters/postgres"), ("postgresql", "./adapters/postgres"),
   ("redis", "./adapters/redis"),
   ("sqlite", "./adapters/sqlite"), ("sqlite3", "./adapters/sqlite")]

/-- Construction inputs consumed by `load`: the `adapter` option and the
`uri`, each possibly absent. -/
structure LoadOptions where
  adapter : Option String
  uri : Option String

/-- JavaScript truthiness of a possibly-absent string: `undefined` and
the empty string are falsy. -/
def jsTruthyStr : Option String → Bool
  | none => false
  | some s => !(s == "")

/-- Longest prefix of a character list containing no colon. -/
def takeUntilColon : List Char → List Char
  | [] => []
  | c :: cs => if c == ':' then [] else c :: takeUntilColon cs

/-- Model of the regular expression match that takes everything before
the first colon of the URI (src/index.js line 20). -/
def uriScheme (u : String) : String :=
  ⟨takeUntilColon u.data⟩

/-- Own-property names of `Object.prototype` (Node 12 / V8).  The
`adapters` object is a plain object literal, so the property read
`adapters[adapter]` also hits these inherited properties, whose values
are functions (or, for `__proto__`, the prototype object) rather than
module-path strings. -/
def objectProtoProps : List String :=
  ["constructor", "hasOwnProperty", "isPrototypeOf", "propertyIsEnumerable",
   "toLocaleString", "toString", "valueOf", "__proto__",
   "__defineGetter__", "__defineSetter__", "__lookupGetter__", "__lookupSetter__"]

/-- Result of the property read `adapters[adapter]` when it is not
`undefined`: an own property of the literal, carrying its module-path
string, or a property inherited from `Object.prototype`, whose value is
not a string. -/
inductive AdapterProp where
  | ownModule (path : String)
  | inherited (name : String)

/-- Model of the JavaScript property read `adapters[adapter]`
(src/index.js line 21): the own property if the literal declares one,
else the inherited `Object.prototype` property if the name denotes one,
else `undefined` (`none`). -/
def adapterProp (name : String) : Option AdapterProp :=
  match (adapters.find? (fun p => p.1 == name)).map Prod.snd with
  | some m => some (.ownModule m)
  | none =>
    if objectProtoProps.contains name then some (.inherited name)
    else none

/-- Model of `load` (src/index.js lines 5-27): when an adapter or uri is
given and `adapters[adapter]` is not `undefined`, the source runs
`new (require(adapters[adapter]))(options)` — for an own property this
requires the backend module, but for a property inherited from
`Object.prototype` the argument of `require` is not a string and
`require` throws a `TypeError`; only when the read is `undefined` does
`load` fall through and return a fresh empty `Map`. -/
def load (o : LoadOptions) : Except String Resolved :=
  if jsTruthyStr o.adapter || jsTruthyStr o.uri then
    let adapter :=
      if jsTruthyStr o.adapter then o.adapter.getD ""
      else uriScheme (o.uri.getD "")
    match adapterProp adapter with
    | some (.ownModule m) => .ok (.adapterModule m)
    | some (.inherited _) => .error "TypeError: The id argument must be of type string"
    | none => .ok (.memoryMap [])
  else .ok (.memoryMap [])

/-- JSON-serializability of a value, read off the model of
`JSON.stringify`: the serialization is a string (not `undefined`). -/
def isJsonSerializable (v : JSValue) : Bool :=
  match jsonStringifyVal v with
  | .str _ => true
  | _ => false

/-- State of the in-memory store of a freshly constructed default
instance after a sequence of `set(key, value)` calls. -/
def runSets (ops : List (String × JSValue)) : Store :=
  ops.foldl (fun st p =>
    match setEndb defaultOptions st p.1 p.2 with
    | .ok q => q.2
    | .error _ => st) []

theorem replaceFirstList_append (pat rep rest : List Char) :
    replaceFirstList pat rep (pat ++ rest) = rep ++ rest := by
  have hp : pat.isPrefixOf (pat ++ rest) = true :=
    List.isPrefixOf_iff_prefix.mpr ⟨rest, rfl⟩
  cases h : pat ++ rest with
  | nil =>
    rcases List.append_eq_nil.mp h with ⟨h1, h2⟩
    subst h1; subst h2
    simp [replaceFirstList]
  | cons c cs =>
    rw [← h]
    rcases pat with _ | ⟨p, ps⟩
    · simp [replaceFirstList] at h ⊢
      cases rest with
      | nil => simp at h
      | cons a as =>
        simp [replaceFirstList, List.isPrefixOf]
    · have h' : p :: (ps ++ rest) = c :: cs := by simpa using h
      rw [show ((p :: ps) ++ rest : List Char) = p :: (ps ++ rest) by rfl, h']
      rw [replaceFirstList, ← h', ← show ((p :: ps) ++ rest : List Char) = p :: (ps ++ rest) from rfl]
      rw [hp]
      simp [List.drop_left]

theorem mapGet_mapSet_self (st : Store) (k : String) (v : JSValue) :
    mapGet (mapSet st k v) k = v := by
  induction st with
  | nil => simp [mapSet, mapGet]
  | cons p rest ih =>
    by_cases h : p.1 = k
    · simp [mapSet, mapGet, h]
    · simp only [mapSet, mapGet]
      rw [if_neg (by simpa using h), mapGet, if_neg (by simpa using h)]
      exact ih

theorem getEndb_eq_mapGet (o : EndbOptions) (st : Store) (key : String) :
    getEndb o st key = mapGet st (_addKeyPrefix o.ns key) := by
  unfold getEndb
  cases mapGet st (_addKeyPrefix o.ns key) <;> rfl

theorem mapDelete_fst (st : Store) (k : String) :
    (mapDelete st k).1 = mapHas st k := by
  induction st with
  | nil => simp [mapDelete, mapHas]
  | cons p rest ih =>
    by_cases h : p.1 = k
    · simp [mapDelete, mapHas, h]
    · have hb : (p.1 == k) = false := by simpa using h
      simp only [mapDelete]
      rw [if_neg (by simpa using h)]
      simpa [mapHas, List.any_cons, hb] using ih

theorem mapHas_iff_mem (st : Store) (k : String) :
    mapHas st k = true ↔ k ∈ st.map Prod.fst := by
  simp only [mapHas, List.any_eq_true, List.mem_map, beq_iff_eq]

theorem mapHas_mapSet_self (st : Store) (k : String) (v : JSValue) :
    mapHas (mapSet st k v) k = true := by
  induction st with
  | nil => simp [mapSet, mapHas]
  | cons p rest ih =>
    by_cases h : p.1 = k
    · simp [mapSet, mapHas, h]
    · simp only [mapSet, mapHas]
      rw [if_neg (by simpa using h)]
      simpa [mapHas, List.any_cons, h] using ih

theorem mapHas_mapSet_ne (st : Store) (k1 k2 : String) (v : JSValue) (h : k1 ≠ k2) :
    mapHas (mapSet st k1 v) k2 = mapHas st k2 := by
  induction st with
  | nil => simp [mapSet, mapHas, h]
  | cons p rest ih =>
    by_cases hp : p.1 = k1
    · simp [mapSet, mapHas, hp]
    · simp only [mapSet]
      rw [if_neg (by simpa using hp)]
      simp only [mapHas, List.any_cons]
      rw [show (List.any (mapSet rest k1 v) fun p => p.1 == k2) = rest.any fun p => p.1 == k2 from ih]

theorem keys_mapSet_subset (st : Store) (k : String) (v : JSValue) :
    ∀ x, x ∈ (mapSet st k v).map Prod.fst → x ∈ st.map Prod.fst ∨ x = k := by
  induction st with
  | nil => intro x hx; simp [mapSet] at hx; simp [hx]
  | cons p rest ih =>
    intro x hx
    by_cases hp : p.1 = k
    · simp only [mapSet] at hx
      rw [if_pos (by simpa using hp)] at hx
      simp only [List.map_cons, List.mem_cons] at hx
      rcases hx with hx | hx
      · exact Or.inl (by simp [hx])
      · exact Or.inl (by simp [hx])
    · simp only [mapSet] at hx
      rw [if_neg (by simpa using hp)] at hx
      simp only [List.map_cons, List.mem_cons] at hx
      rcases hx with hx | hx
      · exact Or.inl (by simp [hx])
      · rcases ih x hx with h1 | h1
        · exact Or.inl (by simp [h1])
        · exact Or.inr h1

theorem nodup_keys_mapSet (st : Store) (k : String) (v : JSValue)
    (h : (st.map Prod.fst).Nodup) : ((mapSet st k v).map Prod.fst).Nodup := by
  induction st with
  | nil => simp [mapSet]
  | cons p rest ih =>
    simp only [List.map_cons, List.nodup_cons] at h
    by_cases hp : p.1 = k
    · simp only [mapSet]
      rw [if_pos (by simpa using hp)]
      simpa [List.nodup_cons] using h
    · simp only [mapSet]
      rw [if_neg (by simpa using hp)]
      simp only [List.map_cons, List.nodup_cons]
      refine ⟨?_, ih h.2⟩
      intro hmem
      rcases keys_mapSet_subset rest k v p.1 hmem with h1 | h1
      · exact h.1 h1
      · exact hp h1

theorem mapHas_mapDelete_self (st : Store) (k : String)
    (h : (st.map Prod.fst).Nodup) : mapHas (mapDelete st k).2 k = false := by
  induction st with
  | nil => simp [mapDelete, mapHas]
  | cons p rest ih =>
    simp only [List.map_cons, List.nodup_cons] at h
    by_cases hp : p.1 = k
    · simp only [mapDelete]
      rw [if_pos (by simpa using hp)]
      subst hp
      show mapHas rest p.1 = false
      by_contra hc
      have ht : mapHas rest p.1 = true := by simpa using hc
      exact h.1 ((mapHas_iff_mem rest p.1).mp ht)
    · have hb : (p.1 == k) = false := by simpa using hp
      simp only [mapDelete]
      rw [if_neg (by simpa using hp)]
      show mapHas (p :: (mapDelete rest k).2) k = false
      simpa [mapHas, List.any_cons, hb] using ih h.2

theorem mapGet_eq_undef_of_not_has (st : Store) (k : String)
    (h : mapHas st k = false) : mapGet st k = .undefined := by
  induction st with
  | nil => rfl
  | cons p rest ih =>
    simp only [mapHas, List.any_cons, Bool.or_eq_false_iff] at h
    simp only [mapGet]
    rw [if_neg (by simpa using h.1)]
    exact ih (by simpa [mapHas] using h.2)

theorem _addKeyPrefix_inj (ns k1 k2 : String)
    (h : _addKeyPrefix ns k1 = _addKeyPrefix ns k2) : k1 = k2 := by
  unfold _addKeyPrefix at h
  have h2 : (ns ++ ":").data ++ k1.data = (ns ++ ":").data ++ k2.data := by
    have h1 := congrArg String.data h
    simpa [String.data_append] using h1
  have h3 : k1.data = k2.data := by
    exact List.append_cancel_left h2
  cases k1; cases k2; exact congrArg String.mk h3

theorem setEndb_default (st : Store) (k : String) (v : JSValue) :
    setEndb defaultOptions st k v = .ok (true, mapSet st (_addKeyPrefix "endb" k) v) := rfl

theorem findLoop_eq_find? (fn : JSValue → Bool) (es : List Element) :
    findLoop fn es =
      (match es.find? (fun e => fn e.value) with
        | some e => elemToJS e
        | none => JSValue.undefined) := by
  induction es with
  | nil => rfl
  | cons e es ih =>
    simp only [findLoop, List.find?]
    cases h : fn e.value with
    | true => simp
    | false => simpa using ih

/-- C8: for every namespace string and every key, the key handed to the
backend is exactly the namespace, a colon, and the key, and stripping
with `_removeKeyPrefix` recovers the original key. -/
theorem keyPrefix_roundtrip (ns k : String) :
    _addKeyPrefix ns k = ns ++ ":" ++ k ∧
    _removeKeyPrefix ns (_addKeyPrefix ns k) = k := by
  refine ⟨rfl, ?_⟩
  show jsReplaceFirst (ns ++ ":") "" (ns ++ ":" ++ k) = k
  unfold jsReplaceFirst
  have hd : (ns ++ ":" ++ k).data = (ns ++ ":").data ++ k.data :=
    String.data_append (ns ++ ":") k
  rw [hd, show ("" : String).data = ([] : List Char) from rfl, replaceFirstList_append]
  rw [List.nil_append]

/-- C1: on the default in-memory instance, `set(k, v)` with a
JSON-serializable `v` resolves to `true` and stores the raw value under
the prefixed key, and a subsequent `get(k)` resolves to exactly `v`. -/
theorem set_get_roundtrip (st : Store) (k : String) (v : JSValue)
    (_hv : isJsonSerializable v = true) :
    setEndb defaultOptions st k v =
      .ok (true, mapSet st (_addKeyPrefix "endb" k) v) ∧
    getEndb defaultOptions (mapSet st (_addKeyPrefix "endb" k) v) k = v := by
  refine ⟨setEndb_default st k v, ?_⟩
  rw [getEndb_eq_mapGet]
  exact mapGet_mapSet_self st (_addKeyPrefix "endb" k) v

/-- C1 witness: `set("foo", "bar")` on a fresh default instance resolves
to `true` and `get("foo")` then resolves to `"bar"`. -/
theorem set_get_roundtrip_witness :
    isJsonSerializable (JSValue.str "bar") = true ∧
    (setEndb defaultOptions [] "foo" (JSValue.str "bar") =
        .ok (true, mapSet [] (_addKeyPrefix "endb" "foo") (JSValue.str "bar")) ∧
      getEndb defaultOptions (mapSet [] (_addKeyPrefix "endb" "foo") (JSValue.str "bar")) "foo" =
        JSValue.str "bar") :=
  ⟨rfl, set_get_roundtrip [] "foo" (JSValue.str "bar") rfl⟩

/-- C4: in `set`, the serialize hook is invoked on the value but its
result is discarded: whenever the hook returns (any result at all), the
raw unserialized value is what reaches the backend store, and when the
hook throws, `set` rejects with that error, showing the hook is indeed
invoked. -/
theorem set_discards_serialize (ser : JSValue → Except String JSValue)
    (st : Store) (k : String) (v : JSValue) :
    (∀ s, ser v = .ok s →
      setEndb { defaultOptions with serialize := ser } st k v =
        .ok (true, mapSet st (_addKeyPrefix "endb" k) v)) ∧
    (∀ e, ser v = .error e →
      setEndb { defaultOptions with serialize := ser } st k v = .error e) := by
  constructor
  · intro s h
    show (ser v >>= fun _ =>
      (pure (true, mapSet st (_addKeyPrefix "endb" k) v) : Except String (Bool × Store))) = _
    rw [h]
    rfl
  · intro e h
    show (ser v >>= fun _ =>
      (pure (true, mapSet st (_addKeyPrefix "endb" k) v) : Except String (Bool × Store))) = _
    rw [h]
    rfl

/-- C4 witness: with a serialize hook returning a constant string, the
stored value is still the raw number. -/
theorem set_discards_serialize_witness :
    setEndb { defaultOptions with serialize := fun _ => Except.ok (JSValue.str "DISCARDED") }
        [] "foo" (JSValue.num 1) =
      Except.ok (true, [("endb:foo", JSValue.num 1)]) :=
  (set_discards_serialize (fun _ => Except.ok (JSValue.str "DISCARDED"))
    [] "foo" (JSValue.num 1)).1 (JSValue.str "DISCARDED") rfl

/-- C2 (code bug): after `set("foo", "bar")` on the default in-memory
instance, `all()` does not resolve to a collection containing
`{key: "foo", value: "bar"}`: it rejects, because the deserialize hook
(`JSON.parse`) is applied to the raw stored value `bar`, which is not
JSON text (`set` discarded the serialized form). -/
theorem all_rejects_after_set :
    setEndb defaultOptions [] "foo" (JSValue.str "bar") =
      .ok (true, [("endb:foo", JSValue.str "bar")]) ∧
    allEndb defaultOptions [("endb:foo", JSValue.str "bar")] = .error "Unexpected token" :=
  ⟨rfl, rfl⟩

/-- C3 counterexample: on a store whose element does satisfy the
predicate, `find` resolves to the whole element object
`{key, value}`, not to the matching value (`undefined` here). -/
theorem find_returns_element_object :
    findEndb defaultOptions [("endb:foo", JSValue.str "5")]
        (fun v => match v with | JSValue.undefined => true | _ => false) =
      .ok (JSValue.obj [("key", JSValue.str "foo"), ("value", JSValue.undefined)]) ∧
    JSValue.obj [("key", JSValue.str "foo"), ("value", JSValue.undefined)] ≠ JSValue.undefined :=
  ⟨rfl, fun h => JSValue.noConfusion h⟩

/-- C3 (amended): `find(fn)` resolves to the first element object
`{key, value}` produced by `all()` whose value satisfies `fn`, and to
`undefined` when no element's value satisfies `fn`. -/
theorem find_first_matching_element (o : EndbOptions) (st : Store) (fn : JSValue → Bool) :
    findEndb o st fn =
      (allEndb o st).map (fun es =>
        match es.find? (fun e => fn e.value) with
        | some e => elemToJS e
        | none => JSValue.undefined) := by
  unfold findEndb
  cases allEndb o st with
  | error e => rfl
  | ok es => exact congrArg Except.ok (findLoop_eq_find? fn es)

/-- C10: `clear()` on the in-memory store empties the underlying `Map`
entirely, with no namespace filtering: afterwards, under every namespace,
`has` is false and `get` is `undefined` for every key, so instances
sharing one store cannot clear independently. -/
theorem clear_ignores_namespace (st : Store) :
    clearEndb st = ([] : Store) ∧
    (∀ nsp k : String,
      hasEndb { defaultOptions with ns := nsp } (clearEndb st) k = false ∧
      getEndb { defaultOptions with ns := nsp } (clearEndb st) k = JSValue.undefined) :=
  ⟨rfl, fun _ _ => ⟨rfl, rfl⟩⟩

/-- C5 counterexample: the scheme `toString` of the uri `toString://x`
is outside the fixed adapter mapping, yet `load` does not silently
return a fresh `Map`: the property read `adapters["toString"]` hits the
inherited `Object.prototype.toString`, which is not `undefined`, so the
source calls `require` on a non-string and a `TypeError` is thrown. -/
theorem load_throws_on_proto_scheme :
    uriScheme "toString://x" = "toString" ∧
    (adapters.find? (fun p => p.1 == "toString")).map Prod.snd = none ∧
    load { adapter := none, uri := some "toString://x" } =
      .error "TypeError: The id argument must be of type string" :=
  ⟨rfl, rfl, rfl⟩

/-- C5 (amended): when no adapter option is given and the uri is absent
or its scheme (the substring before the first colon) is neither in the
fixed adapter mapping nor the name of a property inherited from
`Object.prototype` by the adapters object literal, `load` silently
returns a fresh empty in-memory `Map` and no error is raised or
signaled; for a scheme naming an inherited property, `require` throws a
`TypeError` instead. -/
theorem load_unrecognized_fallback (o : LoadOptions) (ha : o.adapter = none)
    (hu : o.uri = none ∨ ∀ u, o.uri = some u →
      (adapters.find? (fun p => p.1 == uriScheme u)).map Prod.snd = none ∧
      objectProtoProps.contains (uriScheme u) = false) :
    load o = .ok (.memoryMap []) := by
  rcases o with ⟨a, u⟩
  simp only at ha hu
  subst ha
  rcases hu with hu | hu
  · subst hu
    rfl
  · cases u with
    | none => rfl
    | some s =>
      rcases hu s rfl with ⟨h1, h2⟩
      have h2m : uriScheme s ∉ objectProtoProps := by simpa using h2
      by_cases hs : s = ""
      · subst hs
        rfl
      · simp [load, jsTruthyStr, hs, adapterProp, h1, h2m]

/-- C5 witness: a uri whose scheme `foo` is neither in the adapter
mapping nor an `Object.prototype` property silently yields the empty
in-memory store. -/
theorem load_unrecognized_fallback_witness :
    load { adapter := none, uri := some "foo://bar" } = .ok (.memoryMap []) :=
  load_unrecognized_fallback { adapter := none, uri := some "foo://bar" } rfl
    (Or.inr (fun u hu => by injection hu with h; subst h; exact ⟨rfl, rfl⟩))

/-- C6: on the in-memory store with no duplicate keys, `delete(k)`
resolves to `true` exactly when an entry for `k` exists; after
`set(k, v)` it resolves to `true` once, then `false` on a repeated
`delete(k)`, and `get(k)` afterwards resolves to `undefined`. -/
theorem delete_true_iff_exists (st : Store) (k : String) (v : JSValue)
    (hwf : (st.map Prod.fst).Nodup) :
    (deleteEndb defaultOptions st k).1 = hasEndb defaultOptions st k ∧
    (∀ st', setEndb defaultOptions st k v = .ok (true, st') →
      (deleteEndb defaultOptions st' k).1 = true ∧
      (deleteEndb defaultOptions (deleteEndb defaultOptions st' k).2 k).1 = false ∧
      getEndb defaultOptions (deleteEndb defaultOptions st' k).2 k = JSValue.undefined) := by
  constructor
  · exact mapDelete_fst st (_addKeyPrefix "endb" k)
  · intro st' hset
    have hst' : st' = mapSet st (_addKeyPrefix "endb" k) v := by
      rw [setEndb_default st k v] at hset
      have h1 := congrArg (fun x => match x with
        | Except.ok (q : Bool × Store) => q.2
        | Except.error _ => st') hset
      simpa using h1.symm
    subst hst'
    have h2 : ((mapSet st (_addKeyPrefix "endb" k) v).map Prod.fst).Nodup :=
      nodup_keys_mapSet st (_addKeyPrefix "endb" k) v hwf
    refine ⟨?_, ?_, ?_⟩
    · show (mapDelete (mapSet st (_addKeyPrefix "endb" k) v) (_addKeyPrefix "endb" k)).1 = true
      rw [mapDelete_fst]
      exact mapHas_mapSet_self st (_addKeyPrefix "endb" k) v
    · show (mapDelete (mapDelete (mapSet st (_addKeyPrefix "endb" k) v)
          (_addKeyPrefix "endb" k)).2 (_addKeyPrefix "endb" k)).1 = false
      rw [mapDelete_fst]
      exact mapHas_mapDelete_self _ _ h2
    · rw [getEndb_eq_mapGet]
      exact mapGet_eq_undef_of_not_has _ _ (mapHas_mapDelete_self _ _ h2)

/-- C6 witness: on the store holding only `endb:foo`, `delete("foo")`
resolves to `true`, a repeated `delete("foo")` to `false`, and
`get("foo")` afterwards to `undefined`. -/
theorem delete_true_iff_exists_witness :
    (deleteEndb defaultOptions [("endb:foo", JSValue.num 2)] "foo").1 = true ∧
    (deleteEndb defaultOptions
        (deleteEndb defaultOptions [("endb:foo", JSValue.num 2)] "foo").2 "foo").1 = false ∧
    getEndb defaultOptions
        (deleteEndb defaultOptions [("endb:foo", JSValue.num 2)] "foo").2 "foo" = JSValue.undefined :=
  (delete_true_iff_exists [] "foo" (JSValue.num 2) (by simp)).2
    [("endb:foo", JSValue.num 2)] rfl

theorem runSets_has_false (k : String) (ops : List (String × JSValue)) :
    ∀ st0 : Store, (∀ p ∈ ops, p.1 ≠ k) → hasEndb defaultOptions st0 k = false →
      hasEndb defaultOptions (ops.foldl (fun st p =>
        match setEndb defaultOptions st p.1 p.2 with
        | .ok q => q.2
        | .error _ => st) st0) k = false := by
  induction ops with
  | nil => intro st0 _ h0; simpa using h0
  | cons p ops ih =>
    intro st0 hk h0
    simp only [List.foldl_cons]
    refine ih _ (fun q hq => hk q (List.mem_cons_of_mem _ hq)) ?_
    rw [show (match setEndb defaultOptions st0 p.1 p.2 with
        | Except.ok q => q.2
        | Except.error _ => st0) = mapSet st0 (_addKeyPrefix "endb" p.1) p.2 from by
      rw [setEndb_default]]
    show mapHas (mapSet st0 (_addKeyPrefix "endb" p.1) p.2) (_addKeyPrefix "endb" k) = false
    rw [mapHas_mapSet_ne]
    · exact h0
    · intro he
      exact hk p (List.mem_cons_self p ops) (_addKeyPrefix_inj "endb" p.1 k he)

/-- C7: on a fresh default in-memory instance, after any sequence of
`set` calls none of which targets `k`, `has(k)` resolves to `false`;
and immediately after `set(k, v)` on any store, `has(k)` resolves to
`true`. -/
theorem has_false_before_set_true_after (ops : List (String × JSValue)) (st : Store)
    (k : String) (v : JSValue) (hk : ∀ p ∈ ops, p.1 ≠ k) :
    hasEndb defaultOptions (runSets ops) k = false ∧
    (∀ st', setEndb defaultOptions st k v = .ok (true, st') →
      hasEndb defaultOptions st' k = true) := by
  constructor
  · exact runSets_has_false k ops [] hk rfl
  · intro st' hset
    have hst' : st' = mapSet st (_addKeyPrefix "endb" k) v := by
      rw [setEndb_default st k v] at hset
      have h1 := congrArg (fun x => match x with
        | Except.ok (q : Bool × Store) => q.2
        | Except.error _ => st') hset
      simpa using h1.symm
    subst hst'
    exact mapHas_mapSet_self st (_addKeyPrefix "endb" k) v

/-- C7 witness: after setting only `bar` from a fresh instance,
`has("foo")` is `false`; after `set("foo", _)`, `has("foo")` is
`true`. -/
theorem has_false_before_set_true_after_witness :
    hasEndb defaultOptions (runSets [("bar", JSValue.num 1)]) "foo" = false ∧
    hasEndb defaultOptions (mapSet [] (_addKeyPrefix "endb" "foo") (JSValue.str "x")) "foo" = true :=
  ⟨(has_false_before_set_true_after [("bar", JSValue.num 1)] [] "foo" (JSValue.str "x")
      (by decide)).1,
    (has_false_before_set_true_after [("bar", JSValue.num 1)] [] "foo" (JSValue.str "x")
      (by decide)).2 (mapSet [] (_addKeyPrefix "endb" "foo") (JSValue.str "x")) rfl⟩

/-- C9 counterexample: with the random draw `31/32` (in `[0, 1)`) and
the nonnegative operand `13/5`, `math(k, "random", 13/5)` stores the
integer `3`, which is not in the inclusive range `[0, 13/5]`. -/
theorem math_random_exceeds_operand :
    mathEndb defaultOptions [] "k" "random" (13 / 5) (31 / 32)
        (fun _ _ _ => Except.ok JSValue.undefined) =
      .ok (true, [("endb:k", JSValue.num ((jsRound ((31 : ℚ) / 32 * (13 / 5)) : Int) : ℚ))]) ∧
    jsRound ((31 : ℚ) / 32 * (13 / 5)) = 3 ∧
    (0 : ℚ) ≤ 31 / 32 ∧ (31 / 32 : ℚ) < 1 ∧ (0 : ℚ) ≤ 13 / 5 ∧
    ¬ (((3 : Int) : ℚ) ≤ 13 / 5) := by
  refine ⟨rfl, by norm_num [jsRound], by norm_num, by norm_num, by norm_num, by norm_num⟩

/-- C9 (amended): for `operation` equal to `random` or `rand`, a random
draw `r` in `[0, 1)` and a nonnegative operand `n`, `math` resolves to
`true` and stores `round(r * n)`, an integer in the inclusive range
`[0, round(n)]` (which is `[0, n]` whenever `n` is an integer). -/
theorem math_random_within_rounded_bound (st : Store) (k op : String) (n r : ℚ)
    (utilMath : JSValue → String → ℚ → Except String JSValue)
    (hop : op = "random" ∨ op = "rand")
    (hr0 : 0 ≤ r) (hr1 : r < 1) (hn : 0 ≤ n) :
    mathEndb defaultOptions st k op n r utilMath =
      .ok (true, mapSet st (_addKeyPrefix "endb" k)
        (JSValue.num ((jsRound (r * n) : Int) : ℚ))) ∧
    0 ≤ jsRound (r * n) ∧ jsRound (r * n) ≤ jsRound n := by
  refine ⟨?_, ?_, ?_⟩
  · rcases hop with h | h <;> subst h <;>
      exact setEndb_default st k (JSValue.num ((jsRound (r * n) : Int) : ℚ))
  · unfold jsRound
    refine Int.le_floor.mpr ?_
    push_cast
    have h1 : (0 : ℚ) ≤ r * n := mul_nonneg hr0 hn
    linarith
  · unfold jsRound
    apply Int.floor_le_floor
    have h2 : r * n ≤ n := by
      calc r * n ≤ 1 * n := mul_le_mul_of_nonneg_right (le_of_lt hr1) hn
        _ = n := one_mul n
    linarith

/-- C9 amended witness: with operand `2` and random draw `1/2`, `math`
stores `round(1) = 1`, an integer within `[0, round(2)]`. -/
theorem math_random_within_rounded_bound_witness :
    ("random" = "random" ∨ ("random" : String) = "rand") ∧
    (0 : ℚ) ≤ 1 / 2 ∧ (1 / 2 : ℚ) < 1 ∧ (0 : ℚ) ≤ 2 ∧
    (mathEndb defaultOptions [] "k" "random" 2 (1 / 2)
        (fun _ _ _ => Except.ok JSValue.undefined) =
      .ok (true, mapSet [] (_addKeyPrefix "endb" "k")
        (JSValue.num ((jsRound ((1 : ℚ) / 2 * 2) : Int) : ℚ))) ∧
      0 ≤ jsRound ((1 : ℚ) / 2 * 2) ∧ jsRound ((1 : ℚ) / 2 * 2) ≤ jsRound 2) :=
  ⟨Or.inl rfl, by norm_num, by norm_num, by norm_num,
    math_random_within_rounded_bound [] "k" "random" 2 (1 / 2)
      (fun _ _ _ => Except.ok JSValue.undefined) (Or.inl rfl)
      (by norm_num) (by norm_num) (by norm_num)⟩

end EndbModel
